import Mathlib

/-!
Verification of the jinja.rs resolution-and-rendering pipeline.

This file gives a shallow embedding of `src/main.rs`: the configuration
data model (`VarSpec`, `RootConfig`), shell-choice precedence and command
execution (`shell_choice`, `mkSpawnRequest`, `eval_cmd`), the
context-building pass of `main` (`processSpec`, `buildContext`), the
dynamic Rhai function synthesis and the filter bridge (`func_defs`,
`compiledFns`, `call_fn`, `filterClosure`), and the overall pipeline
ordering (`runMain`).

External effects (process spawning, Rhai evaluation, file reads) are
modelled by an `Oracle` of abstract result-producing functions, and the
pipeline additionally records a trace of `Effect`s so that ordering and
abort properties ("nothing was spawned", "the template was never loaded")
are expressible.
-/

namespace JinjaRs

/-- One argument of a dynamically synthesised Rhai function
(`ArgumentSpec` in `main.rs`: a single `name` field). -/
structure ArgumentSpec where
  name : String
deriving DecidableEq, Repr

/-- A variable specification (`VarSpec` in `main.rs`).  `script` is a plain
string defaulting to `""`; all other produce-value fields are `Option`s. -/
structure VarSpec where
  name : Option String
  function : Option String
  arguments : List ArgumentSpec
  script : String
  cmd : Option String
  cmds : Option (List String)
  shell : Option String
  cwd : Option String
  env : Option (List (String × String))
deriving DecidableEq, Repr

/-- Top-level configuration (`RootConfig` in `main.rs`). -/
structure RootConfig where
  default_shell : Option String
  vars : List VarSpec

/-- Shell-choice precedence from `eval_cmd` (`main.rs` line 202):
`shell.or(global_default).unwrap_or("fish")`.  A total function: the
selection itself can never fail. -/
def shell_choice (shell global_default : Option String) : String :=
  match shell with
  | some s => s
  | none =>
    match global_default with
    | some g => g
    | none => "fish"

/-- Which program a spawn request runs: the lazily extracted embedded fish
binary, or a system binary looked up by name (`main.rs` lines 204-210). -/
inductive ShellProgram where
  | bundled : ShellProgram
  | system : String → ShellProgram
deriving DecidableEq, Repr

/-- The fully resolved description of the child process `eval_cmd` builds:
program, `-c` command string, working-directory override and the list of
per-variable environment overrides applied via `command.env` (`main.rs`
lines 204-224). -/
structure SpawnRequest where
  program : ShellProgram
  cmd : String
  cwd : Option String
  envOverrides : List (String × String)
deriving DecidableEq, Repr

/-- Builds the spawn request exactly as `eval_cmd` does: resolve the shell
by precedence, map `"fish"` to the bundled binary and anything else to a
system lookup, attach `cwd` and the environment overrides (an absent
overlay contributes no overrides). -/
def mkSpawnRequest (cmd : String) (shell global_default : Option String)
    (cwd : Option String) (env : Option (List (String × String))) : SpawnRequest :=
  let sc := shell_choice shell global_default
  { program := if sc = "fish" then ShellProgram.bundled else ShellProgram.system sc
    cmd := cmd
    cwd := cwd
    envOverrides := match env with | some m => m | none => [] }

/-- The child environment after `eval_cmd`'s overlay loop
(`main.rs` lines 219-224): starting from the inherited parent environment,
each `(k, v)` override is applied in order via `command.env(k, v)`. -/
def applyEnvOverrides (parent : String → Option String)
    (overrides : List (String × String)) : String → Option String :=
  overrides.foldl (fun acc kv => fun k => if k = kv.1 then some kv.2 else acc k) parent

/-- Rust's `str::trim`: drop leading and trailing whitespace characters.
(The whitespace class is Lean's `Char.isWhitespace`; Rust uses the full
Unicode White_Space property, identical on the ASCII range relevant
here.) -/
def rustTrim (s : String) : String :=
  String.mk (((s.data.dropWhile Char.isWhitespace).reverse.dropWhile Char.isWhitespace).reverse)

/-- The outcome of `command.output()` in `eval_cmd`, abstracted: on
success the child's stdout after lossy UTF-8 decoding, on failure the
diagnostic text of the I/O error. -/
def SpawnOracle : Type := SpawnRequest → Except String String

/-- `eval_cmd` (`main.rs` lines 194-233): build the spawn request, run it,
and either trim the captured stdout or degrade the spawn error to the
string `"ERROR: <diagnostic>"`. -/
def eval_cmd (spawn : SpawnOracle) (cmd : String) (shell global_default : Option String)
    (cwd : Option String) (env : Option (List (String × String))) : String :=
  match spawn (mkSpawnRequest cmd shell global_default cwd env) with
  | Except.ok out => rustTrim out
  | Except.error e => "ERROR: " ++ e

/-- The template context (`ctx : HashMap<String, Value>` in `main.rs`),
modelled as an association list with unique keys; all inserted values are
strings in the source, so values are plain strings here. -/
def Ctx : Type := List (String × String)

/-- `HashMap::insert`: the new binding replaces any previous binding of
the same key, leaving exactly one entry for it. -/
def ctxInsert (ctx : Ctx) (k v : String) : Ctx :=
  (k, v) :: (List.filter (fun p : String × String => p.1 ≠ k) ctx)

/-- `HashMap::get`: the value bound to `k`, if any. -/
def ctxLookup : Ctx → String → Option String
  | [], _ => none
  | p :: rest, k => if p.1 = k then some p.2 else ctxLookup rest k

/-- The keys of a context. -/
def ctxKeys (ctx : Ctx) : List String := ctx.map Prod.fst

theorem ctxLookup_insert_self (ctx : Ctx) (k v : String) :
    ctxLookup (ctxInsert ctx k v) k = some v := by
  simp [ctxLookup, ctxInsert]

theorem ctxLookup_insert_ne (ctx : Ctx) (k v k' : String) (h : k' ≠ k) :
    ctxLookup (ctxInsert ctx k v) k' = ctxLookup ctx k' := by
  simp only [ctxLookup, ctxInsert]
  rw [if_neg (Ne.symm h)]
  induction ctx with
  | nil => simp [ctxLookup]
  | cons p rest ih =>
    by_cases hp : p.1 = k
    · have hne : ¬ p.1 = k' := by rw [hp]; exact Ne.symm h
      simp only [List.filter_cons]
      rw [if_neg (by simpa using hp)]
      simp only [ctxLookup]
      rw [if_neg hne]
      exact ih
    · simp only [List.filter_cons]
      rw [if_pos (by simpa using hp)]
      by_cases hk' : p.1 = k'
      · simp [ctxLookup, hk']
      · simp only [ctxLookup]
        rw [if_neg hk', if_neg hk']
        exact ih

theorem mem_ctxKeys_insert (ctx : Ctx) (k v k' : String) :
    k' ∈ ctxKeys (ctxInsert ctx k v) ↔ k' = k ∨ k' ∈ ctxKeys ctx := by
  simp only [ctxKeys, ctxInsert, List.map_cons, List.mem_cons]
  constructor
  · rintro (h | h)
    · exact Or.inl h
    · right
      obtain ⟨p, hp, hpk⟩ := List.mem_map.mp h
      exact hpk ▸ List.mem_map.mpr ⟨p, (List.mem_filter.mp hp).1, rfl⟩
  · rintro (h | h)
    · exact Or.inl h
    · by_cases hk : k' = k
      · exact Or.inl hk
      · right
        obtain ⟨p, hp, hpk⟩ := List.mem_map.mp h
        refine List.mem_map.mpr ⟨p, List.mem_filter.mpr ⟨hp, ?_⟩, hpk⟩
        simpa [hpk] using hk

theorem ctxKeys_nodup_insert (ctx : Ctx) (k v : String)
    (h : (ctxKeys ctx).Nodup) : (ctxKeys (ctxInsert ctx k v)).Nodup := by
  simp only [ctxKeys, ctxInsert, List.map_cons, List.nodup_cons]
  constructor
  · intro hmem
    obtain ⟨p, hp, hpk⟩ := List.mem_map.mp hmem
    exact absurd hpk (by simpa using (List.mem_filter.mp hp).2)
  · have : List.Sublist (List.filter (fun p : String × String => p.1 ≠ k) ctx) ctx :=
      List.filter_sublist ctx
    exact (h.sublist (this.map Prod.fst))

theorem ctxLookup_isSome_iff (ctx : Ctx) (k : String) :
    (∃ v, ctxLookup ctx k = some v) ↔ k ∈ ctxKeys ctx := by
  induction ctx with
  | nil => simp [ctxLookup, ctxKeys]
  | cons p rest ih =>
    by_cases hp : p.1 = k
    · simp [ctxLookup, ctxKeys, hp]
    · simpa [ctxLookup, ctxKeys, hp, Ne.symm hp] using ih

/-- A parsed template, as minijinja sees it after `add_template`: literal
text interleaved with variable references. -/
inductive TemplateItem where
  | text : String → TemplateItem
  | var : String → TemplateItem
deriving DecidableEq, Repr

/-- Modelled from the spec: minijinja's default undefined-variable policy,
used by `main.rs` (no `set_undefined_behavior` call, so the `Environment`
default applies at `tmpl.render(ctx)`) — a reference to a name absent from
the context renders as the empty string and never raises; literal text is
emitted verbatim.  The rendering engine itself is an external crate, not
part of this repository's sources. -/
def renderTemplate (ctx : Ctx) : List TemplateItem → String
  | [] => ""
  | TemplateItem.text s :: rest => s ++ renderTemplate ctx rest
  | TemplateItem.var n :: rest =>
    (match ctxLookup ctx n with | some v => v | none => "") ++ renderTemplate ctx rest

/-- One externally observable effect of the pipeline, recorded in order:
a Rhai script evaluated for a variable, a child process spawned, or the
template file loaded. -/
inductive Effect where
  | evalScript : String → Effect
  | spawn : SpawnRequest → Effect
  | loadTemplate : Effect
deriving DecidableEq, Repr

/-- The external world as `main` sees it: Rhai compilation of the
assembled function definitions, Rhai expression evaluation (the result
already stringified, as `main.rs` does `result.to_string()`), process
spawning, the template file read, and minijinja template parsing. -/
structure Oracle where
  compile : String → Except String Unit
  evalScript : String → Except String String
  spawn : SpawnOracle
  readTemplate : Except String String
  parseTemplate : String → Except String (List TemplateItem)

/-- One iteration of the context-building loop of `main`
(`main.rs` lines 408-452) on a single spec, also recording its effects.
A spec without a `name` does nothing.  Otherwise: the script branch fires
when `function` is absent and the trimmed script is non-empty (a Rhai
error aborts the run via `?`); then the `cmd` branch, then the `cmds`
branch, each inserting under the same `name`. -/
def processSpec (o : Oracle) (gd : Option String) (ctx : Ctx) (s : VarSpec) :
    Except String Ctx × List Effect :=
  match s.name with
  | none => (Except.ok ctx, [])
  | some name =>
    let step1 : Except String Ctx × List Effect :=
      if s.function.isNone && (rustTrim s.script != "") then
        match o.evalScript s.script with
        | Except.ok v =>
          (Except.ok (ctxInsert ctx name v), [Effect.evalScript s.script])
        | Except.error e =>
          (Except.error ("Rhai Script Error: " ++ e), [Effect.evalScript s.script])
      else (Except.ok ctx, [])
    match step1 with
    | (Except.error e, tr) => (Except.error e, tr)
    | (Except.ok ctx1, tr1) =>
      let step2 : Ctx × List Effect :=
        match s.cmd with
        | some c =>
          (ctxInsert ctx1 name (eval_cmd o.spawn c s.shell gd s.cwd s.env),
           [Effect.spawn (mkSpawnRequest c s.shell gd s.cwd s.env)])
        | none => (ctx1, [])
      let step3 : Ctx × List Effect :=
        match s.cmds with
        | some cs =>
          (ctxInsert step2.1 name
            (String.intercalate "\n"
              (cs.map (fun c => eval_cmd o.spawn c s.shell gd s.cwd s.env))),
           cs.map (fun c => Effect.spawn (mkSpawnRequest c s.shell gd s.cwd s.env)))
        | none => (step2.1, [])
      (Except.ok step3.1, tr1 ++ step2.2 ++ step3.2)

/-- The context-building loop folded over a list of specs, starting from a
given accumulated state.  An error short-circuits: `main` returns at the
first failing script evaluation, so no later spec contributes effects. -/
def buildContextFrom (o : Oracle) (gd : Option String)
    (init : Except String Ctx × List Effect) (specs : List VarSpec) :
    Except String Ctx × List Effect :=
  specs.foldl (fun acc s =>
    match acc with
    | (Except.error e, tr) => (Except.error e, tr)
    | (Except.ok ctx, tr) =>
      let pr := processSpec o gd ctx s
      (pr.1, tr ++ pr.2)) init

/-- The full context-building pass of `main` (`main.rs` lines 406-452),
starting from the empty context. -/
def buildContext (o : Oracle) (gd : Option String) (specs : List VarSpec) :
    Except String Ctx × List Effect :=
  buildContextFrom o gd (Except.ok [], []) specs

/-- The Rhai function-definition source assembled by `main`
(`main.rs` lines 328-343): for each spec carrying `function`, the line
`fn <name>(<args joined by comma>) { <script> }`. -/
def func_defs (specs : List VarSpec) : String :=
  specs.foldl (fun acc s =>
    match s.function with
    | some f =>
      acc ++ "fn " ++ f ++ "("
        ++ String.intercalate ", " (s.arguments.map ArgumentSpec.name)
        ++ ") \x7b " ++ s.script ++ " \x7d\n"
    | none => acc) ""

/-- The whole `main` pipeline after configuration load (`main.rs` lines
315-469), with its effect trace: compile the assembled function
definitions (a failure aborts immediately via `?`, before the context
loop), build the context, then load and parse the template and render it.
Filter registration (lines 369-393) is pure closure setup with no
observable effect and no failure path, so it contributes no trace entry. -/
def runMain (o : Oracle) (root : RootConfig) : Except String String × List Effect :=
  match o.compile (func_defs root.vars) with
  | Except.error e => (Except.error e, [])
  | Except.ok _ =>
    match buildContext o root.default_shell root.vars with
    | (Except.error e, tr) => (Except.error e, tr)
    | (Except.ok ctx, tr) =>
      match o.readTemplate with
      | Except.error e => (Except.error e, tr ++ [Effect.loadTemplate])
      | Except.ok text =>
        match o.parseTemplate text with
        | Except.error e => (Except.error e, tr ++ [Effect.loadTemplate])
        | Except.ok tpl => (Except.ok (renderTemplate ctx tpl), tr ++ [Effect.loadTemplate])

/-- A compiled Rhai function: name, parameter list, body.  The program
compiled by `main` holds one such function per spec carrying `function`
(`main.rs` lines 328-346). -/
structure RhaiFn where
  name : String
  params : List String
  body : String
deriving DecidableEq, Repr

/-- The function set denoted by the compiled AST: one entry per spec with
a `function` field, carrying its declared argument names and script body
(`main.rs` lines 328-346). -/
def compiledFns (specs : List VarSpec) : List RhaiFn :=
  specs.filterMap (fun s =>
    s.function.map (fun f => RhaiFn.mk f (s.arguments.map ArgumentSpec.name) s.script))

/-- Modelled from the spec: ScriptEngine Contract C — `call_fn` resolves a
compiled function by name and arity and `fails with ScriptError if the
function is absent or argument arity mismatches`.  The Rhai engine itself
is an external crate; the body's evaluation is abstracted by `evalBody`,
and the diagnostic text of the failure is abstracted to a fixed form. -/
def call_fn (evalBody : RhaiFn → List String → String) (prog : List RhaiFn)
    (fname : String) (args : List String) : Except String String :=
  match prog.find? (fun f => f.name == fname && f.params.length == args.length) with
  | some f => Except.ok (evalBody f args)
  | none => Except.error ("Function not found: " ++ fname)

/-- The filter closure `main` registers for a spec carrying `function`
(`main.rs` lines 375-391): it always calls the compiled function with
exactly one positional string argument and wraps a Rhai failure into a
minijinja `InvalidOperation` error, which aborts rendering. -/
def filterClosure (evalBody : RhaiFn → List String → String) (prog : List RhaiFn)
    (fname : String) (arg : String) : Except String String :=
  match call_fn evalBody prog fname [arg] with
  | Except.ok r => Except.ok r
  | Except.error e => Except.error ("Rhai Call Error: " ++ e)

theorem buildContextFrom_nil (o : Oracle) (gd : Option String)
    (init : Except String Ctx × List Effect) :
    buildContextFrom o gd init [] = init := rfl

theorem buildContextFrom_cons_ok (o : Oracle) (gd : Option String) (ctx : Ctx)
    (tr : List Effect) (s : VarSpec) (rest : List VarSpec) :
    buildContextFrom o gd (Except.ok ctx, tr) (s :: rest) =
      buildContextFrom o gd
        ((processSpec o gd ctx s).1, tr ++ (processSpec o gd ctx s).2) rest := rfl

theorem buildContextFrom_error (o : Oracle) (gd : Option String) (e : String)
    (tr : List Effect) (specs : List VarSpec) :
    buildContextFrom o gd (Except.error e, tr) specs = (Except.error e, tr) := by
  induction specs with
  | nil => rfl
  | cons s rest ih => exact ih

theorem buildContextFrom_fst_trace_irrel (o : Oracle) (gd : Option String)
    (specs : List VarSpec) :
    ∀ (r : Except String Ctx) (tr tr' : List Effect),
      (buildContextFrom o gd (r, tr) specs).1 = (buildContextFrom o gd (r, tr') specs).1 := by
  induction specs with
  | nil => intro r tr tr'; rfl
  | cons s rest ih =>
    intro r tr tr'
    cases r with
    | error e => rw [buildContextFrom_error, buildContextFrom_error]
    | ok ctx => rw [buildContextFrom_cons_ok, buildContextFrom_cons_ok]; exact ih _ _ _

/-- A concrete oracle for witnesses: compilation succeeds, script
evaluation echoes the source, spawns echo the command string, the
template is empty. -/
def oracleEcho : Oracle :=
  { compile := fun _ => Except.ok ()
    evalScript := fun s => Except.ok s
    spawn := fun req => Except.ok req.cmd
    readTemplate := Except.ok ""
    parseTemplate := fun _ => Except.ok [] }

/-- A concrete oracle whose spawns all fail, as when the interpreter does
not exist. -/
def oracleNoSpawn : Oracle :=
  { oracleEcho with spawn := fun _ => Except.error "No such file or directory (os error 2)" }

/-- A concrete oracle whose Rhai compilation fails. -/
def oracleBadCompile : Oracle :=
  { oracleEcho with compile := fun _ => Except.error "Syntax error" }

/-- C1: `eval_cmd` selects the interpreter strictly by precedence — the
per-variable override if present, else the global default if present, else
`"fish"`, which is mapped to the bundled interpreter; `shell_choice` is a
total function, so the selection itself never fails. -/
theorem shell_choice_precedence (a b c : String) (g cw : Option String)
    (env : Option (List (String × String))) :
    shell_choice (some a) g = a ∧ shell_choice none (some b) = b ∧
    shell_choice none none = "fish" ∧
    (mkSpawnRequest c none none cw env).program = ShellProgram.bundled :=
  ⟨rfl, rfl, rfl, by simp [mkSpawnRequest, shell_choice]⟩

/-- C2: when the spawn fails, `eval_cmd` does not raise — it returns the
literal string `"ERROR: <diagnostic>"` — and the context-building pass is
not aborted: building over a spec whose command fails to spawn continues
over the remaining specs exactly as if the `ERROR:` string had been
inserted for that variable. -/
theorem spawn_failure_fail_soft (o : Oracle) (c n : String) (sh gd cw : Option String)
    (env : Option (List (String × String))) (e : String)
    (h : o.spawn (mkSpawnRequest c sh gd cw env) = Except.error e) :
    eval_cmd o.spawn c sh gd cw env = "ERROR: " ++ e ∧
    ∀ rest : List VarSpec,
      (buildContext o gd (VarSpec.mk (some n) none [] "" (some c) none sh cw env :: rest)).1 =
      (buildContextFrom o gd (Except.ok (ctxInsert [] n ("ERROR: " ++ e)), []) rest).1 := by
  have hev : eval_cmd o.spawn c sh gd cw env = "ERROR: " ++ e := by
    simp [eval_cmd, h]
  refine ⟨hev, fun rest => ?_⟩
  rw [buildContext, buildContextFrom_cons_ok]
  have hps : processSpec o gd [] (VarSpec.mk (some n) none [] "" (some c) none sh cw env) =
      (Except.ok (ctxInsert [] n (eval_cmd o.spawn c sh gd cw env)),
       [Effect.spawn (mkSpawnRequest c sh gd cw env)]) := rfl
  rw [hps, hev]
  exact buildContextFrom_fst_trace_irrel o gd rest _ _ _

theorem spawn_failure_fail_soft_witness :
    oracleNoSpawn.spawn (mkSpawnRequest "ls" none none none none) =
      Except.error "No such file or directory (os error 2)" ∧
    eval_cmd oracleNoSpawn.spawn "ls" none none none none =
      "ERROR: No such file or directory (os error 2)" ∧
    (buildContext oracleNoSpawn none
        (VarSpec.mk (some "v") none [] "" (some "ls") none none none none
          :: [VarSpec.mk (some "w") none [] "" (some "pwd") none none none none])).1 =
      (buildContextFrom oracleNoSpawn none
        (Except.ok (ctxInsert [] "v"
          ("ERROR: " ++ "No such file or directory (os error 2)")), [])
        [VarSpec.mk (some "w") none [] "" (some "pwd") none none none none]).1 :=
  ⟨rfl,
   by
    have h := spawn_failure_fail_soft oracleNoSpawn "ls" "v" none none none none
      "No such file or directory (os error 2)" rfl
    exact h.1,
   (spawn_failure_fail_soft oracleNoSpawn "ls" "v" none none none none
      "No such file or directory (os error 2)" rfl).2 _⟩

/-- C4: if compiling the assembled Rhai function definitions fails, the
run aborts with that error before anything else happens: the effect trace
is empty, so no script variable was evaluated, no command was spawned and
the template was never loaded. -/
theorem compile_failure_aborts (o : Oracle) (root : RootConfig) (e : String)
    (h : o.compile (func_defs root.vars) = Except.error e) :
    runMain o root = (Except.error e, []) := by
  simp [runMain, h]

theorem compile_failure_aborts_witness :
    oracleBadCompile.compile
      (func_defs [VarSpec.mk (some "x") (some "f") [] "1+1" (some "date") none none none none]) =
      Except.error "Syntax error" ∧
    runMain oracleBadCompile
      (RootConfig.mk none
        [VarSpec.mk (some "x") (some "f") [] "1+1" (some "date") none none none none]) =
      (Except.error "Syntax error", []) :=
  ⟨rfl,
   compile_failure_aborts oracleBadCompile
     (RootConfig.mk none
       [VarSpec.mk (some "x") (some "f") [] "1+1" (some "date") none none none none])
     "Syntax error" rfl⟩

/-- C5: a `cmds` spec runs each command in declaration order with the same
shell/cwd/env resolution as a single command (each spawn request is built
by the same `mkSpawnRequest`), collects the trimmed outputs in order and
inserts their newline join under the spec's name; in particular commands
producing `"first"`, `"second"`, `"third"` resolve to
`"first\nsecond\nthird"`. -/
theorem multi_command_join (o : Oracle) (gd : Option String) (ctx : Ctx) (n : String)
    (cs : List String) (sh cw : Option String) (env : Option (List (String × String)))
    (c1 c2 c3 : String) :
    processSpec o gd ctx (VarSpec.mk (some n) none [] "" none (some cs) sh cw env) =
      (Except.ok (ctxInsert ctx n (String.intercalate "\n"
          (cs.map (fun c => eval_cmd o.spawn c sh gd cw env)))),
       cs.map (fun c => Effect.spawn (mkSpawnRequest c sh gd cw env))) ∧
    (cs = [c1, c2, c3] →
      o.spawn (mkSpawnRequest c1 sh gd cw env) = Except.ok "first" →
      o.spawn (mkSpawnRequest c2 sh gd cw env) = Except.ok "second" →
      o.spawn (mkSpawnRequest c3 sh gd cw env) = Except.ok "third" →
      ctxLookup (ctxInsert ctx n (String.intercalate "\n"
          (cs.map (fun c => eval_cmd o.spawn c sh gd cw env)))) n =
        some "first\nsecond\nthird") := by
  constructor
  · rfl
  · intro hcs h1 h2 h3
    subst hcs
    have hjoin : String.intercalate "\n"
        ([c1, c2, c3].map (fun c => eval_cmd o.spawn c sh gd cw env)) =
        "first\nsecond\nthird" := by
      simp [eval_cmd, h1, h2, h3]
      rfl
    rw [hjoin, ctxLookup_insert_self]

theorem multi_command_join_witness :
    oracleEcho.spawn (mkSpawnRequest "first" none none none none) = Except.ok "first" ∧
    ctxLookup (ctxInsert [] "multi" (String.intercalate "\n"
      (["first", "second", "third"].map
        (fun c => eval_cmd oracleEcho.spawn c none none none none)))) "multi" =
      some "first\nsecond\nthird" :=
  ⟨rfl,
   (multi_command_join oracleEcho none [] "multi" ["first", "second", "third"]
      none none none "first" "second" "third").2 rfl rfl rfl rfl⟩

/-- C3: any named spec matching more than one of the three producer
branches is neither rejected nor silently skipped — processing always
succeeds.  The effect trace contains every matching branch's effects in
the fixed order script, then `cmd`, then `cmds`, and the value bound to
the name is the last matching branch's: the `cmds` join whenever `cmds`
is present, else the `cmd` output whenever `cmd` is present, else the
script result — last-writer-wins for every overlap shape (body+cmd,
body+cmds, cmd+cmds, and the triple overlap).  The script evaluation is
only assumed to succeed when the script branch actually fires. -/
theorem overlapping_spec_last_writer_wins (o : Oracle) (gd : Option String) (ctx : Ctx)
    (n : String) (s : VarSpec) (v : String)
    (hname : s.name = some n)
    (hev : (s.function.isNone && (rustTrim s.script != "")) = true →
      o.evalScript s.script = Except.ok v) :
    ∃ ctx',
      processSpec o gd ctx s =
        (Except.ok ctx',
         (if s.function.isNone && (rustTrim s.script != "")
          then [Effect.evalScript s.script] else [])
          ++ (match s.cmd with
              | some c => [Effect.spawn (mkSpawnRequest c s.shell gd s.cwd s.env)]
              | none => [])
          ++ (match s.cmds with
              | some cs =>
                cs.map (fun c => Effect.spawn (mkSpawnRequest c s.shell gd s.cwd s.env))
              | none => [])) ∧
      (∀ cs, s.cmds = some cs →
        ctxLookup ctx' n = some (String.intercalate "\n"
          (cs.map (fun c => eval_cmd o.spawn c s.shell gd s.cwd s.env)))) ∧
      (∀ c, s.cmds = none → s.cmd = some c →
        ctxLookup ctx' n = some (eval_cmd o.spawn c s.shell gd s.cwd s.env)) ∧
      (s.cmds = none → s.cmd = none →
        (s.function.isNone && (rustTrim s.script != "")) = true →
        ctxLookup ctx' n = some v) := by
  cases hb : (s.function.isNone && (rustTrim s.script != "")) with
  | false =>
    rcases hc : s.cmd with _ | c
    · rcases hcds : s.cmds with _ | cs
      · refine ⟨ctx, by simp [processSpec, hname, hc, hcds, hb], ?_, ?_, ?_⟩
        · intro cs h; exact Option.noConfusion h
        · intro c _ h2; exact Option.noConfusion h2
        · intro _ _ ht; exact Bool.noConfusion ht
      · refine ⟨ctxInsert ctx n (String.intercalate "\n"
            (cs.map (fun c => eval_cmd o.spawn c s.shell gd s.cwd s.env))),
          by simp [processSpec, hname, hc, hcds, hb], ?_, ?_, ?_⟩
        · intro cs' h
          cases Option.some.inj h
          exact ctxLookup_insert_self _ _ _
        · intro c h1; exact Option.noConfusion h1
        · intro h1; exact Option.noConfusion h1
    · rcases hcds : s.cmds with _ | cs
      · refine ⟨ctxInsert ctx n (eval_cmd o.spawn c s.shell gd s.cwd s.env),
          by simp [processSpec, hname, hc, hcds, hb], ?_, ?_, ?_⟩
        · intro cs h; exact Option.noConfusion h
        · intro c' _ h2
          cases Option.some.inj h2
          exact ctxLookup_insert_self _ _ _
        · intro _ h2; exact Option.noConfusion h2
      · refine ⟨ctxInsert (ctxInsert ctx n (eval_cmd o.spawn c s.shell gd s.cwd s.env)) n
            (String.intercalate "\n"
              (cs.map (fun ci => eval_cmd o.spawn ci s.shell gd s.cwd s.env))),
          by simp [processSpec, hname, hc, hcds, hb], ?_, ?_, ?_⟩
        · intro cs' h
          cases Option.some.inj h
          exact ctxLookup_insert_self _ _ _
        · intro c' h1; exact Option.noConfusion h1
        · intro h1; exact Option.noConfusion h1
  | true =>
    have hev' := hev hb
    rcases hc : s.cmd with _ | c
    · rcases hcds : s.cmds with _ | cs
      · refine ⟨ctxInsert ctx n v,
          by simp [processSpec, hname, hc, hcds, hb, hev'], ?_, ?_, ?_⟩
        · intro cs h; exact Option.noConfusion h
        · intro c _ h2; exact Option.noConfusion h2
        · intro _ _ _; exact ctxLookup_insert_self _ _ _
      · refine ⟨ctxInsert (ctxInsert ctx n v) n (String.intercalate "\n"
            (cs.map (fun ci => eval_cmd o.spawn ci s.shell gd s.cwd s.env))),
          by simp [processSpec, hname, hc, hcds, hb, hev'], ?_, ?_, ?_⟩
        · intro cs' h
          cases Option.some.inj h
          exact ctxLookup_insert_self _ _ _
        · intro c h1; exact Option.noConfusion h1
        · intro h1; exact Option.noConfusion h1
    · rcases hcds : s.cmds with _ | cs
      · refine ⟨ctxInsert (ctxInsert ctx n v) n
            (eval_cmd o.spawn c s.shell gd s.cwd s.env),
          by simp [processSpec, hname, hc, hcds, hb, hev'], ?_, ?_, ?_⟩
        · intro cs h; exact Option.noConfusion h
        · intro c' _ h2
          cases Option.some.inj h2
          exact ctxLookup_insert_self _ _ _
        · intro _ h2; exact Option.noConfusion h2
      · refine ⟨ctxInsert (ctxInsert (ctxInsert ctx n v) n
            (eval_cmd o.spawn c s.shell gd s.cwd s.env)) n
            (String.intercalate "\n"
              (cs.map (fun ci => eval_cmd o.spawn ci s.shell gd s.cwd s.env))),
          by simp [processSpec, hname, hc, hcds, hb, hev'], ?_, ?_, ?_⟩
        · intro cs' h
          cases Option.some.inj h
          exact ctxLookup_insert_self _ _ _
        · intro c' h1; exact Option.noConfusion h1
        · intro h1; exact Option.noConfusion h1

theorem overlapping_spec_last_writer_wins_witness :
    oracleEcho.evalScript "1+1" = Except.ok "1+1" ∧
    (∃ ctx',
      processSpec oracleEcho none []
          (VarSpec.mk (some "x") none [] "1+1" (some "c0") none none none none) =
        (Except.ok ctx',
         [Effect.evalScript "1+1", Effect.spawn (mkSpawnRequest "c0" none none none none)]) ∧
      ctxLookup ctx' "x" = some (eval_cmd oracleEcho.spawn "c0" none none none none)) :=
  ⟨rfl, by
    obtain ⟨ctx', heq, _, hcmd, _⟩ :=
      overlapping_spec_last_writer_wins oracleEcho none [] "x"
        (VarSpec.mk (some "x") none [] "1+1" (some "c0") none none none none) "1+1"
        rfl (fun _ => rfl)
    exact ⟨ctx', heq, hcmd "c0" rfl rfl⟩⟩

/-- A spec whose script body consists of a single space: non-empty as a
string, but empty after trimming. -/
def whitespaceBodySpec : VarSpec :=
  VarSpec.mk (some "x") none [] " " none none none none none

/-- C7 counterexample: a spec with `function` absent, `name` present and
the non-empty body `" "` is NOT evaluated — `main.rs` line 411 tests
`!spec.script.trim().is_empty()`, so the branch does not fire, nothing is
inserted under `"x"` and no script evaluation happens (empty trace). -/
theorem script_branch_whitespace_counterexample :
    whitespaceBodySpec.function = none ∧ whitespaceBodySpec.name = some "x" ∧
    whitespaceBodySpec.script ≠ "" ∧
    processSpec oracleEcho none [] whitespaceBodySpec = (Except.ok [], []) ∧
    ctxLookup [] "x" = none :=
  ⟨rfl, rfl, by decide, rfl, rfl⟩

/-- C7 (amended): for a spec with `function` absent, `name` present and no
command fields, the script branch fires exactly when the body is non-empty
after trimming whitespace: a trimmed-non-empty body is evaluated and its
stringified result inserted under the name, while a whitespace-only (or
empty) body leaves the context untouched and evaluates nothing. -/
theorem script_branch_fires_iff_trimmed_nonempty (o : Oracle) (gd : Option String)
    (ctx : Ctx) (n : String) (s : VarSpec) (v : String)
    (hname : s.name = some n) (hfn : s.function = none)
    (hcmd : s.cmd = none) (hcmds : s.cmds = none) :
    (rustTrim s.script ≠ "" → o.evalScript s.script = Except.ok v →
      processSpec o gd ctx s =
        (Except.ok (ctxInsert ctx n v), [Effect.evalScript s.script])) ∧
    (rustTrim s.script = "" → processSpec o gd ctx s = (Except.ok ctx, [])) := by
  obtain ⟨sn, sf, sa, ss, sc, scs, ssh, scw, senv⟩ := s
  simp only at hname hfn hcmd hcmds
  subst hname hfn hcmd hcmds
  constructor
  · intro htrim hev
    simp [processSpec, hev, htrim]
  · intro htrim
    simp [processSpec, htrim]

theorem script_branch_fires_iff_trimmed_nonempty_witness :
    processSpec oracleEcho none []
        (VarSpec.mk (some "y") none [] "2" none none none none none) =
      (Except.ok (ctxInsert [] "y" "2"), [Effect.evalScript "2"]) :=
  (script_branch_fires_iff_trimmed_nonempty oracleEcho none [] "y"
      (VarSpec.mk (some "y") none [] "2" none none none none none) "2"
      rfl rfl rfl rfl).1 (by decide) rfl

/-- C8: a template reference to a name absent from the context renders as
the empty string — `renderTemplate` is total, so this is never a hard
error — and the rendering of the rest of the template is unaffected. -/
theorem undefined_variable_renders_empty (ctx : Ctx) (pre post : List TemplateItem)
    (n : String) (h : ctxLookup ctx n = none) :
    renderTemplate ctx (pre ++ TemplateItem.var n :: post) =
      renderTemplate ctx pre ++ renderTemplate ctx post := by
  induction pre with
  | nil => simp [renderTemplate, h]
  | cons it rest ih =>
    cases it with
    | text s => simp [renderTemplate, ih, String.append_assoc]
    | var m => simp [renderTemplate, ih, String.append_assoc]

theorem undefined_variable_renders_empty_witness :
    ctxLookup [("who", "world")] "missing" = none ∧
    renderTemplate [("who", "world")]
        ([TemplateItem.text "a "] ++ TemplateItem.var "missing"
          :: [TemplateItem.text " b", TemplateItem.var "who"]) =
      renderTemplate [("who", "world")] [TemplateItem.text "a "] ++
        renderTemplate [("who", "world")] [TemplateItem.text " b", TemplateItem.var "who"] :=
  ⟨rfl,
   undefined_variable_renders_empty [("who", "world")] [TemplateItem.text "a "]
     [TemplateItem.text " b", TemplateItem.var "who"] "missing" rfl⟩

theorem applyEnvOverrides_not_mem (overrides : List (String × String)) :
    ∀ (parent : String → Option String) (k : String), k ∉ overrides.map Prod.fst →
      applyEnvOverrides parent overrides k = parent k := by
  induction overrides with
  | nil => intro parent k _; rfl
  | cons kv rest ih =>
    intro parent k h
    simp only [List.map_cons, List.mem_cons, not_or] at h
    have hstep : applyEnvOverrides parent (kv :: rest) k =
        applyEnvOverrides (fun k' => if k' = kv.1 then some kv.2 else parent k') rest k := rfl
    rw [hstep, ih _ _ h.2]
    simp [h.1]

theorem applyEnvOverrides_mem (overrides : List (String × String)) :
    ∀ (parent : String → Option String) (k v : String),
      (overrides.map Prod.fst).Nodup → (k, v) ∈ overrides →
      applyEnvOverrides parent overrides k = some v := by
  induction overrides with
  | nil => intro _ _ _ _ hmem; cases hmem
  | cons kv rest ih =>
    intro parent k v hnodup hmem
    simp only [List.map_cons, List.nodup_cons] at hnodup
    have hstep : applyEnvOverrides parent (kv :: rest) k =
        applyEnvOverrides (fun k' => if k' = kv.1 then some kv.2 else parent k') rest k := rfl
    rcases List.mem_cons.mp hmem with heq | hmem'
    · have hk1 : k = kv.1 := by rw [← heq]
      have hkn : k ∉ rest.map Prod.fst := hk1 ▸ hnodup.1
      rw [hstep, applyEnvOverrides_not_mem rest _ k hkn]
      simp only [if_pos hk1]
      rw [← heq]
    · exact hstep ▸ ih _ k v hnodup.2 hmem'

/-- C9: the environment overlay carried in the spawn request built by
`eval_cmd` is applied on top of the inherited parent environment: each
overlay pair overrides the parent's binding for its key, and every key
outside the overlay keeps the parent's value unchanged.  `parent` is
arbitrary — in particular `parent k = none` — so an overlay-only variable
is visible to the child even when absent from the parent environment. -/
theorem env_overlay_applied (parent : String → Option String) (c : String)
    (sh gd cw : Option String) (ov : List (String × String)) (k v : String)
    (hnodup : (ov.map Prod.fst).Nodup) (hmem : (k, v) ∈ ov) :
    applyEnvOverrides parent (mkSpawnRequest c sh gd cw (some ov)).envOverrides k = some v ∧
    ∀ k', k' ∉ ov.map Prod.fst →
      applyEnvOverrides parent (mkSpawnRequest c sh gd cw (some ov)).envOverrides k' =
        parent k' :=
  ⟨applyEnvOverrides_mem ov parent k v hnodup hmem,
   fun k' hk' => applyEnvOverrides_not_mem ov parent k' hk'⟩

theorem env_overlay_applied_witness :
    ((([("ONLY_IN_OVERLAY", "42")].map Prod.fst).Nodup) ∧
      ("ONLY_IN_OVERLAY", "42") ∈ [("ONLY_IN_OVERLAY", "42")]) ∧
    applyEnvOverrides (fun _ => none)
        (mkSpawnRequest "echo" none none none
          (some [("ONLY_IN_OVERLAY", "42")])).envOverrides "ONLY_IN_OVERLAY" = some "42" ∧
    ∀ k', k' ∉ [("ONLY_IN_OVERLAY", "42")].map Prod.fst →
      applyEnvOverrides (fun _ => none)
          (mkSpawnRequest "echo" none none none
            (some [("ONLY_IN_OVERLAY", "42")])).envOverrides k' = (fun _ => none) k' :=
  ⟨⟨by decide, by decide⟩,
   env_overlay_applied (fun _ => none) "echo" none none none
     [("ONLY_IN_OVERLAY", "42")] "ONLY_IN_OVERLAY" "42" (by decide) (by decide)⟩

/-- A concrete body evaluator for witnesses: a call returns the function's
body text. -/
def evalBodyConst : RhaiFn → List String → String := fun f _ => f.body

/-- C10: the filter closure registered by `main` always calls the compiled
function with exactly one positional string argument, and the scripting
engine resolves functions by name and arity, so if every definition of a
filter's name declares a parameter list of length other than one, every
template invocation of that filter fails with the propagated error. -/
theorem filter_arity_mismatch (evalBody : RhaiFn → List String → String)
    (specs : List VarSpec) (fname : String)
    (h : ∀ s ∈ specs, s.function = some fname → s.arguments.length ≠ 1) :
    ∀ arg, filterClosure evalBody (compiledFns specs) fname arg =
      Except.error ("Rhai Call Error: " ++ ("Function not found: " ++ fname)) := by
  intro arg
  have hfind : (compiledFns specs).find?
      (fun f => f.name == fname && f.params.length == 1) = none := by
    rw [List.find?_eq_none]
    intro f hf
    simp only [Bool.and_eq_true, beq_iff_eq, not_and]
    intro hfn
    obtain ⟨s, hs, hmap⟩ := List.mem_filterMap.mp hf
    cases hsf : s.function with
    | none => rw [hsf] at hmap; cases hmap
    | some fn =>
      rw [hsf] at hmap
      simp only [Option.map_some'] at hmap
      obtain rfl : RhaiFn.mk fn (s.arguments.map ArgumentSpec.name) s.script = f := by
        exact Option.some.inj hmap
      have hfn' : fn = fname := hfn
      have hsn : s.function = some fname := by rw [hsf, hfn']
      have := h s hs hsn
      simpa using this
  simp [filterClosure, call_fn, hfind]

theorem filter_arity_mismatch_witness :
    (∀ s ∈ [VarSpec.mk none (some "f") [] "42" none none none none none],
      s.function = some "f" → s.arguments.length ≠ 1) ∧
    filterClosure evalBodyConst
        (compiledFns [VarSpec.mk none (some "f") [] "42" none none none none none])
        "f" "hello" =
      Except.error ("Rhai Call Error: " ++ ("Function not found: " ++ "f")) :=
  ⟨by decide,
   filter_arity_mismatch evalBodyConst
     [VarSpec.mk none (some "f") [] "42" none none none none none] "f"
     (by decide) "hello"⟩

/-- The script branch's firing condition (`main.rs` line 411): `function`
absent and the trimmed script non-empty. -/
def scriptBranchFires (s : VarSpec) : Prop :=
  s.function = none ∧ rustTrim s.script ≠ ""

instance (s : VarSpec) : Decidable (scriptBranchFires s) := by
  unfold scriptBranchFires; infer_instance

/-- A spec exercising exactly one of {expression, singleCommand,
multiCommand}, the well-formedness invariant of §3. -/
def exercisesExactlyOne (s : VarSpec) : Prop :=
  (scriptBranchFires s ∧ s.cmd = none ∧ s.cmds = none) ∨
  (¬ scriptBranchFires s ∧ s.cmd ≠ none ∧ s.cmds = none) ∨
  (¬ scriptBranchFires s ∧ s.cmd = none ∧ s.cmds ≠ none)

instance (s : VarSpec) : Decidable (exercisesExactlyOne s) := by
  unfold exercisesExactlyOne; infer_instance

theorem processSpec_shape (o : Oracle) (gd : Option String) (ctx : Ctx) (s : VarSpec)
    (h : exercisesExactlyOne s) :
    (∃ e tr, processSpec o gd ctx s = (Except.error e, tr)) ∨
    (s.name = none ∧ processSpec o gd ctx s = (Except.ok ctx, [])) ∨
    (∃ n v tr, s.name = some n ∧
      processSpec o gd ctx s = (Except.ok (ctxInsert ctx n v), tr)) := by
  obtain ⟨sn, sf, sa, ss, sc, scs, ssh, scw, senv⟩ := s
  cases sn with
  | none => exact Or.inr (Or.inl ⟨rfl, rfl⟩)
  | some n =>
    rcases h with ⟨⟨hfn, htrim⟩, hc, hcs⟩ | ⟨hnf, hc, hcs⟩ | ⟨hnf, hc, hcs⟩
    · simp only at hfn hc hcs
      subst hfn hc hcs
      cases hev : o.evalScript ss with
      | error e =>
        refine Or.inl ⟨"Rhai Script Error: " ++ e, [Effect.evalScript ss], ?_⟩
        simp [processSpec, hev, htrim]
      | ok v =>
        refine Or.inr (Or.inr ⟨n, v, [Effect.evalScript ss], rfl, ?_⟩)
        simp [processSpec, hev, htrim]
    · simp only at hnf hc hcs
      subst hcs
      obtain ⟨c, rfl⟩ := Option.ne_none_iff_exists'.mp hc
      have hcond : (sf.isNone && (rustTrim ss != "")) = false := by
        cases sf with
        | some f => simp
        | none =>
          have : rustTrim ss = "" := by
            by_contra hne
            exact hnf ⟨rfl, hne⟩
          simp [this]
      refine Or.inr (Or.inr ⟨n, eval_cmd o.spawn c ssh gd scw senv,
        [Effect.spawn (mkSpawnRequest c ssh gd scw senv)], rfl, ?_⟩)
      simp [processSpec, hcond]
    · simp only at hnf hc hcs
      subst hc
      obtain ⟨cs, rfl⟩ := Option.ne_none_iff_exists'.mp hcs
      have hcond : (sf.isNone && (rustTrim ss != "")) = false := by
        cases sf with
        | some f => simp
        | none =>
          have : rustTrim ss = "" := by
            by_contra hne
            exact hnf ⟨rfl, hne⟩
          simp [this]
      refine Or.inr (Or.inr ⟨n,
        String.intercalate "\n" (cs.map (fun c => eval_cmd o.spawn c ssh gd scw senv)),
        cs.map (fun c => Effect.spawn (mkSpawnRequest c ssh gd scw senv)), rfl, ?_⟩)
      simp [processSpec, hcond]

theorem buildContextFrom_keys_aux (o : Oracle) (gd : Option String)
    (specs : List VarSpec) :
    ∀ (ctx0 : Ctx) (tr0 : List Effect) (ctx : Ctx),
      (∀ s ∈ specs, exercisesExactlyOne s) →
      (buildContextFrom o gd (Except.ok ctx0, tr0) specs).1 = Except.ok ctx →
      ((ctxKeys ctx0).Nodup → (ctxKeys ctx).Nodup) ∧
      (∀ k, k ∈ ctxKeys ctx ↔ k ∈ ctxKeys ctx0 ∨ ∃ s ∈ specs, s.name = some k) := by
  induction specs with
  | nil =>
    intro ctx0 tr0 ctx _ hok
    rw [buildContextFrom_nil] at hok
    obtain rfl : ctx0 = ctx := Except.ok.inj hok
    simp
  | cons s rest ih =>
    intro ctx0 tr0 ctx hall hok
    rw [buildContextFrom_cons_ok] at hok
    rcases processSpec_shape o gd ctx0 s (hall s (by simp)) with
      ⟨e, tr, hps⟩ | ⟨hname, hps⟩ | ⟨n, v, tr, hname, hps⟩
    · rw [hps] at hok
      rw [buildContextFrom_error] at hok
      cases hok
    · rw [hps] at hok
      have hrec := ih ctx0 _ ctx (fun s' hs' => hall s' (by simp [hs'])) hok
      refine ⟨hrec.1, fun k => ?_⟩
      rw [hrec.2 k, List.exists_mem_cons_iff]
      simp [hname]
    · rw [hps] at hok
      have hrec := ih (ctxInsert ctx0 n v) _ ctx
        (fun s' hs' => hall s' (by simp [hs'])) hok
      refine ⟨fun hnd => hrec.1 (ctxKeys_nodup_insert _ _ _ hnd), fun k => ?_⟩
      rw [hrec.2 k, mem_ctxKeys_insert, List.exists_mem_cons_iff]
      simp only [hname, Option.some.injEq]
      constructor
      · rintro ((hkn | hk0) | hrest)
        · exact Or.inr (Or.inl hkn.symm)
        · exact Or.inl hk0
        · exact Or.inr (Or.inr hrest)
      · rintro (hk0 | hnk | hrest)
        · exact Or.inl (Or.inr hk0)
        · exact Or.inl (Or.inl hnk.symm)
        · exact Or.inr hrest

/-- C6: when every spec exercises exactly one of {expression,
singleCommand, multiCommand}, the context produced by the building pass
has pairwise-distinct keys and its key set is exactly the set of declared
names: one entry per named spec, keyed by that spec's declared name. -/
theorem one_entry_per_named_spec (o : Oracle) (gd : Option String)
    (specs : List VarSpec) (ctx : Ctx)
    (hall : ∀ s ∈ specs, exercisesExactlyOne s)
    (hok : (buildContext o gd specs).1 = Except.ok ctx) :
    (ctxKeys ctx).Nodup ∧
    (∀ k, k ∈ ctxKeys ctx ↔ ∃ s ∈ specs, s.name = some k) := by
  have h := buildContextFrom_keys_aux o gd specs [] [] ctx hall hok
  refine ⟨h.1 (by simp [ctxKeys]), fun k => ?_⟩
  rw [h.2 k]
  simp [ctxKeys]

theorem one_entry_per_named_spec_witness :
    (∀ s ∈ [VarSpec.mk (some "a") none [] "1+1" none none none none none,
            VarSpec.mk (some "b") none [] "" (some "pwd") none none none none],
      exercisesExactlyOne s) ∧
    (buildContext oracleEcho none
        [VarSpec.mk (some "a") none [] "1+1" none none none none none,
         VarSpec.mk (some "b") none [] "" (some "pwd") none none none none]).1 =
      Except.ok [("b", "pwd"), ("a", "1+1")] ∧
    (ctxKeys [("b", "pwd"), ("a", "1+1")]).Nodup ∧
    (∀ k, k ∈ ctxKeys [("b", "pwd"), ("a", "1+1")] ↔
      ∃ s ∈ [VarSpec.mk (some "a") none [] "1+1" none none none none none,
             VarSpec.mk (some "b") none [] "" (some "pwd") none none none none],
        s.name = some k) :=
  ⟨by decide, rfl,
   one_entry_per_named_spec oracleEcho none
     [VarSpec.mk (some "a") none [] "1+1" none none none none none,
      VarSpec.mk (some "b") none [] "" (some "pwd") none none none none]
     [("b", "pwd"), ("a", "1+1")] (by decide) rfl⟩

end JinjaRs
